import Mathlib

/-
Verification of the json2toon core: the TOON writer (toon.rs) and the
flattening converter (converter.rs).

Modelling conventions:
- Rust String buffers are Lean String values; methods that mutate a buffer
  become functions returning the new buffer.
- Rust str::len is the UTF-8 byte length, modelled by byteLen below.
- JSON numbers reach the converter as finite f64 values (serde_json
  Number::as_f64). Finite f64 values are dyadic rationals, so numbers are
  modelled as Lean rationals. The test value.fract() == 0.0 holds exactly
  when the rational is an integer (denominator 1), and, given that,
  value.abs() < 1e15 holds exactly when the absolute numerator is below
  10^15 (1e15 is exactly representable, and 10^15 < 2^53, so the i64 cast
  in the integer branch is exact). Rust Display for f64 never uses an
  exponent and prints integer-valued floats without a decimal point; on
  the dyadic rationals considered here it is the exact terminating decimal
  expansion, modelled by floatDisplay.
- Fallible Rust code returning anyhow::Result is modelled with Except.
- The JSON parser (serde_json::from_str) is an external crate, not code of
  this repository; its outcome is passed in as an Except String Json value.
-/

/-- UTF-8 byte length of a string, modelling Rust str::len. -/
def byteLen (s : String) : Nat :=
  (s.data.map Char.utf8Size).sum

/-- Number of newline characters in a string; used to count the
newline-terminated lines of the produced output. -/
def countNL (s : String) : Nat :=
  s.data.count '\n'

/-- A string free of newline characters. -/
def noNL (s : String) : Prop :=
  '\n' ∉ s.data

instance (s : String) : Decidable (noNL s) := by
  unfold noNL; infer_instance

/-- Escape table of toon.rs escape_string, per character. -/
def escapeChar (c : Char) : List Char :=
  if c = '"' then ['\\', '"']
  else if c = '\\' then ['\\', '\\']
  else if c = '\n' then ['\\', 'n']
  else if c = '\r' then ['\\', 'r']
  else if c = '\t' then ['\\', 't']
  else [c]

/-- The five characters altered by the escape table. -/
def isEscCh (c : Char) : Prop :=
  c = '"' ∨ c = '\\' ∨ c = '\n' ∨ c = '\r' ∨ c = '\t'

instance (c : Char) : Decidable (isEscCh c) := by
  unfold isEscCh; infer_instance

def escapeList : List Char → List Char
  | [] => []
  | c :: cs => escapeChar c ++ escapeList cs

/-- Embedding of escape_string from toon.rs: a single left-to-right pass
applying the escape table to every character. -/
def escape_string (s : String) : String :=
  String.mk (escapeList s.data)

/-- ASCII digit character, 0 ≤ d ≤ 9 in all uses. -/
def digitChar (d : Nat) : Char := Char.ofNat (48 + d)

/-- Decimal digits of a natural number, accumulator style; the fuel is
always sufficient since the digit count of n is at most n + 1. -/
def natDigitsAux : Nat → Nat → List Char → List Char
  | 0, _, acc => acc
  | fuel + 1, n, acc =>
    if n < 10 then digitChar n :: acc
    else natDigitsAux fuel (n / 10) (digitChar (n % 10) :: acc)

/-- Plain decimal rendering of a natural number (Rust Display for unsigned
integers): no separators, no sign, no decimal point, no exponent. -/
def natRepr (n : Nat) : String :=
  String.mk (natDigitsAux (n + 1) n [])

/-- Plain decimal rendering of a signed integer (Rust Display for i64). -/
def intRepr (n : Int) : String :=
  if n < 0 then "-" ++ natRepr n.natAbs else natRepr n.natAbs

/-- Multiplicity of p in n (largest k with p^k dividing n), fuel style. -/
def pMultAux : Nat → Nat → Nat → Nat
  | _, _, 0 => 0
  | p, n, fuel + 1 =>
    if 2 ≤ p ∧ 0 < n ∧ n % p = 0 then pMultAux p (n / p) fuel + 1 else 0

def pMult (p n : Nat) : Nat := pMultAux p n n

/-- Left-pad a string with zeros to k characters. -/
def padZeros (s : String) (k : Nat) : String :=
  String.mk (List.replicate (k - s.data.length) '0') ++ s

/-- Rust Display of a finite f64 that is not printed through the integer
branch. Display never uses exponent notation and prints no trailing
fractional zeros; for the dyadic rationals that finite doubles denote this
is the exact terminating decimal expansion rendered here. -/
def floatDisplay (q : ℚ) : String :=
  let k := max (pMult 2 q.den) (pMult 5 q.den)
  let scaled : Int := q.num * ((10 ^ k / q.den : Nat) : Int)
  let sign := if q.num < 0 then "-" else ""
  let mag := scaled.natAbs
  if k = 0 then sign ++ natRepr mag
  else sign ++ natRepr (mag / 10 ^ k) ++ "." ++ padZeros (natRepr (mag % 10 ^ k)) k

/-- The condition of the integer branch of write_number, stated on the
rational denoted by the f64: value.fract() == 0.0 means denominator 1, and
then value.abs() < 1e15 means the numerator is below 10^15 in magnitude. -/
def intBranch (q : ℚ) : Prop :=
  q.den = 1 ∧ q.num.natAbs < 10 ^ 15

instance (q : ℚ) : Decidable (intBranch q) := by
  unfold intBranch; infer_instance

/-- The TOON writer of toon.rs: an append-only output buffer. -/
structure ToonWriter where
  buffer : String

def ToonWriter.new : ToonWriter := ⟨""⟩

/-- write_string from toon.rs: appends key="escaped"\n. -/
def ToonWriter.write_string (w : ToonWriter) (key value : String) : ToonWriter :=
  ⟨w.buffer ++ (key ++ "=\"" ++ escape_string value ++ "\"" ++ "\n")⟩

/-- write_number from toon.rs: integer branch when the value has zero
fractional part and magnitude below 1e15, else default float Display. -/
def ToonWriter.write_number (w : ToonWriter) (key : String) (q : ℚ) : ToonWriter :=
  if intBranch q then ⟨w.buffer ++ (key ++ "=" ++ intRepr q.num ++ "\n")⟩
  else ⟨w.buffer ++ (key ++ "=" ++ floatDisplay q ++ "\n")⟩

/-- write_bool from toon.rs. -/
def ToonWriter.write_bool (w : ToonWriter) (key : String) (b : Bool) : ToonWriter :=
  ⟨w.buffer ++ (key ++ "=" ++ (if b then "true" else "false") ++ "\n")⟩

/-- write_null from toon.rs. -/
def ToonWriter.write_null (w : ToonWriter) (key : String) : ToonWriter :=
  ⟨w.buffer ++ (key ++ "=null" ++ "\n")⟩

/-- finish from toon.rs: consumes the writer, returning the buffer. -/
def ToonWriter.finish (w : ToonWriter) : String :=
  w.buffer

/-- The serde_json value model: JSON values as parsed by the external
parser. Object entries are the ordered key-value list the converter
iterates over (serde preserves a deterministic order for a given input). -/
inductive Json where
  | null
  | bool (b : Bool)
  | num (q : ℚ)
  | str (s : String)
  | arr (elems : List Json)
  | obj (entries : List (String × Json))

/-- The key computation both convert_value and estimate_value_size perform
inline: the segment alone when the accumulated key is empty, otherwise the
accumulated key, a dot, and the segment. -/
def segKey (pre seg : String) : String :=
  if pre = "" then seg else pre ++ "." ++ seg

/-- Modelling serde_json Number::as_f64: with default features every
parsed JSON number is an i64, a u64 or a finite f64, and as_f64 returns
Some on all three variants, so the conversion never fails here. -/
def numAsF64 (q : ℚ) : Option ℚ := some q

mutual
/-- Embedding of Converter::convert_value from converter.rs, with the
writer threaded explicitly. -/
def convertValue (pre : String) : Json → ToonWriter → Except String ToonWriter
  | .null, w => .ok (w.write_null pre)
  | .bool b, w => .ok (w.write_bool pre b)
  | .num q, w =>
    match numAsF64 q with
    | some f => .ok (w.write_number pre f)
    | none => .error ("Invalid number: " ++ floatDisplay q)
  | .str s, w => .ok (w.write_string pre s)
  | .arr es, w =>
    if es.isEmpty then .ok (w.write_string pre "[]")
    else convertArr pre 0 es w
  | .obj kvs, w =>
    if kvs.isEmpty then .ok (w.write_string pre "\x7b\x7d")
    else convertObj pre kvs w
/-- The enumerate loop of the array case of convert_value; i is the 0-based
index of the head of the remaining list. -/
def convertArr (pre : String) (i : Nat) : List Json → ToonWriter → Except String ToonWriter
  | [], w => .ok w
  | e :: es, w =>
    match convertValue (segKey pre (natRepr i)) e w with
    | .ok w2 => convertArr pre (i + 1) es w2
    | .error msg => .error msg
/-- The iteration loop of the object case of convert_value. -/
def convertObj (pre : String) : List (String × Json) → ToonWriter → Except String ToonWriter
  | [], w => .ok w
  | (k, v) :: kvs, w =>
    match convertValue (segKey pre k) v w with
    | .ok w2 => convertObj pre kvs w2
    | .error msg => .error msg
end

/-- The Converter of converter.rs; verbose only controls [INFO] logging. -/
structure Converter where
  verbose : Bool

def Converter.new (verbose : Bool) : Converter := ⟨verbose⟩

/-- Embedding of Converter::convert. The external parse outcome is the
input; the result pairs the [INFO] lines printed to stdout with the
returned Result. The anyhow context wraps the parser diagnostic. -/
def Converter.convert (c : Converter) (parsed : Except String Json) :
    List String × Except String String :=
  let logs0 := if c.verbose then ["[INFO] Parsing JSON..."] else []
  match parsed with
  | .error e => (logs0, .error ("Failed to parse JSON: " ++ e))
  | .ok value =>
    let logs1 := logs0 ++
      (if c.verbose then ["[INFO] JSON parsed successfully", "[INFO] Converting to TOON format..."] else [])
    match convertValue "" value ToonWriter.new with
    | .error e => (logs1, .error e)
    | .ok w =>
      (logs1 ++ (if c.verbose then ["[INFO] Conversion complete"] else []), .ok w.finish)

mutual
/-- Embedding of Converter::estimate_value_size from converter.rs. -/
def estimate_value_size : Json → String → Nat
  | .null, pre => byteLen pre + 6
  | .bool _, pre => byteLen pre + 7
  | .num _, pre => byteLen pre + 25
  | .str s, pre => byteLen pre + byteLen s + 4
  | .arr es, pre =>
    if es.isEmpty then byteLen pre + 5
    else estimateArr pre 0 es
  | .obj kvs, pre =>
    if kvs.isEmpty then byteLen pre + 5
    else estimateObj pre kvs
/-- The enumerate-map-sum of the array case of estimate_value_size. -/
def estimateArr (pre : String) (i : Nat) : List Json → Nat
  | [] => 0
  | e :: es => estimate_value_size e (segKey pre (natRepr i)) + estimateArr pre (i + 1) es
/-- The map-sum of the object case of estimate_value_size. -/
def estimateObj (pre : String) : List (String × Json) → Nat
  | [] => 0
  | (k, v) :: kvs => estimate_value_size v (segKey pre k) + estimateObj pre kvs
end

/-- Embedding of Converter::estimate_size: parse, then estimate. -/
def Converter.estimate_size (_ : Converter) (parsed : Except String Json) :
    Except String Nat :=
  match parsed with
  | .error e => .error ("Failed to parse JSON: " ++ e)
  | .ok value => .ok (estimate_value_size value "")

/-- The text chunk each leaf case of convert_value appends for a given
accumulated key; one entry per emitted record, in emission order. -/
def lineNull (key : String) : String := key ++ "=null" ++ "\n"

def lineBool (key : String) (b : Bool) : String :=
  key ++ "=" ++ (if b then "true" else "false") ++ "\n"

def lineNum (key : String) (q : ℚ) : String :=
  if intBranch q then key ++ "=" ++ intRepr q.num ++ "\n"
  else key ++ "=" ++ floatDisplay q ++ "\n"

def lineStr (key value : String) : String :=
  key ++ "=\"" ++ escape_string value ++ "\"" ++ "\n"

mutual
/-- The list of records convert_value emits for a value under a given
accumulated key, one string per record, in emission order. -/
def recordList (pre : String) : Json → List String
  | .null => [lineNull pre]
  | .bool b => [lineBool pre b]
  | .num q => [lineNum pre q]
  | .str s => [lineStr pre s]
  | .arr es =>
    if es.isEmpty then [lineStr pre "[]"]
    else recordArr pre 0 es
  | .obj kvs =>
    if kvs.isEmpty then [lineStr pre "\x7b\x7d"]
    else recordObj pre kvs
def recordArr (pre : String) (i : Nat) : List Json → List String
  | [] => []
  | e :: es => recordList (segKey pre (natRepr i)) e ++ recordArr pre (i + 1) es
def recordObj (pre : String) : List (String × Json) → List String
  | [] => []
  | (k, v) :: kvs => recordList (segKey pre k) v ++ recordObj pre kvs
end

mutual
/-- Leaf count as the claims define it: null, booleans, numbers, strings,
empty arrays and empty objects count one each; a non-empty container is
the sum over its children. -/
def leafCount : Json → Nat
  | .null => 1
  | .bool _ => 1
  | .num _ => 1
  | .str _ => 1
  | .arr es => if es.isEmpty then 1 else leafCountArr es
  | .obj kvs => if kvs.isEmpty then 1 else leafCountObj kvs
def leafCountArr : List Json → Nat
  | [] => 0
  | e :: es => leafCount e + leafCountArr es
def leafCountObj : List (String × Json) → Nat
  | [] => 0
  | (_, v) :: kvs => leafCount v + leafCountObj kvs
end

/-- A rendered leaf payload, for stating which records a value produces. -/
inductive LeafVal where
  | null
  | bool (b : Bool)
  | num (q : ℚ)
  | str (s : String)

/-- The line a leaf produces under a full key, through the writer. -/
def leafLine (key : String) : LeafVal → String
  | .null => lineNull key
  | .bool b => lineBool key b
  | .num q => lineNum key q
  | .str s => lineStr key s

mutual
/-- The leaves of a JSON value with their path segments from the root:
object entries contribute their key verbatim, array elements their 0-based
decimal index, and empty containers degrade to the sentinel string leaves.
This is the path/leaf reading of the specification, used to state which
records conversion emits. -/
def specLeaves : Json → List (List String × LeafVal)
  | .null => [([], .null)]
  | .bool b => [([], .bool b)]
  | .num q => [([], .num q)]
  | .str s => [([], .str s)]
  | .arr es =>
    if es.isEmpty then [([], .str "[]")]
    else specLeavesArr 0 es
  | .obj kvs =>
    if kvs.isEmpty then [([], .str "\x7b\x7d")]
    else specLeavesObj kvs
def specLeavesArr (i : Nat) : List Json → List (List String × LeafVal)
  | [] => []
  | e :: es =>
    (specLeaves e).map (fun pl => (natRepr i :: pl.1, pl.2)) ++ specLeavesArr (i + 1) es
def specLeavesObj : List (String × Json) → List (List String × LeafVal)
  | [] => []
  | (k, v) :: kvs =>
    (specLeaves v).map (fun pl => (k :: pl.1, pl.2)) ++ specLeavesObj kvs
end

mutual
/-- Values on which the per-leaf size estimates dominate the rendered
output: numbers take the integer branch, strings contain no character the
escape table expands, and no container is empty. -/
def tame : Json → Bool
  | .null => true
  | .bool _ => true
  | .num q => decide (intBranch q)
  | .str s => s.data.all (fun c => escapeChar c == [c])
  | .arr es => !es.isEmpty && tameArr es
  | .obj kvs => !kvs.isEmpty && tameObj kvs
def tameArr : List Json → Bool
  | [] => true
  | e :: es => tame e && tameArr es
def tameObj : List (String × Json) → Bool
  | [] => true
  | (_, v) :: kvs => tame v && tameObj kvs
end

mutual
/-- No object key anywhere in the value contains a newline character; the
writer never escapes keys, so this is what keeps one record on one line. -/
def keysNoNL : Json → Bool
  | .null => true
  | .bool _ => true
  | .num _ => true
  | .str _ => true
  | .arr es => keysNoNLArr es
  | .obj kvs => keysNoNLObj kvs
def keysNoNLArr : List Json → Bool
  | [] => true
  | e :: es => keysNoNL e && keysNoNLArr es
def keysNoNLObj : List (String × Json) → Bool
  | [] => true
  | (k, v) :: kvs => decide (noNL k) && (keysNoNL v && keysNoNLObj kvs)
end

/-- Decoding one escape sequence lead character: the inverse direction of
the escape table. -/
def unescCh (c : Char) : Option Char :=
  if c = '"' then some '"'
  else if c = '\\' then some '\\'
  else if c = 'n' then some '\n'
  else if c = 'r' then some '\r'
  else if c = 't' then some '\t'
  else none

/-- Decoding by the inverse of the escape table: a backslash must begin an
escape sequence from the table; any other character passes through. -/
def unescapeList : List Char → Option (List Char)
  | [] => some []
  | c :: cs =>
    if c = '\\' then
      match cs with
      | [] => none
      | d :: ds =>
        match unescCh d, unescapeList ds with
        | some e, some r => some (e :: r)
        | _, _ => none
    else
      match unescapeList cs with
      | some r => some (c :: r)
      | none => none

/-- Every quote or backslash occurs only as part of a two-character escape
sequence from the table: no unescaped quote or backslash remains. -/
def wellEscaped : List Char → Bool
  | [] => true
  | c :: cs =>
    if c = '\\' then
      match cs with
      | [] => false
      | d :: ds => (unescCh d).isSome && wellEscaped ds
    else
      !(c == '"') && wellEscaped cs

theorem byteLen_append (a b : String) : byteLen (a ++ b) = byteLen a + byteLen b := by
  simp [byteLen, String.data_append]

theorem countNL_append (a b : String) : countNL (a ++ b) = countNL a + countNL b := by
  simp [countNL, String.data_append, List.count_append]

theorem join_foldl (l : List String) (init : String) :
    l.foldl (fun a b => a ++ b) init = init ++ String.join l := by
  induction l generalizing init with
  | nil => simp [String.join]
  | cons s rest ih =>
    show List.foldl (fun a b => a ++ b) (init ++ s) rest = init ++ String.join (s :: rest)
    rw [ih]
    have h2 : String.join (s :: rest) = s ++ String.join rest := by
      show List.foldl (fun a b => a ++ b) ("" ++ s) rest = _
      rw [ih]
      rfl
    rw [h2, String.append_assoc]

theorem join_nil : String.join ([] : List String) = "" := rfl

theorem join_cons (s : String) (l : List String) :
    String.join (s :: l) = s ++ String.join l := by
  have h : String.join (s :: l) = List.foldl (fun a b => a ++ b) ("" ++ s) l := rfl
  rw [h, join_foldl]
  rfl

theorem join_append (a b : List String) :
    String.join (a ++ b) = String.join a ++ String.join b := by
  induction a with
  | nil => simp [join_nil]
  | cons s rest ih => rw [List.cons_append, join_cons, join_cons, ih, String.append_assoc]

theorem join_singleton (s : String) : String.join [s] = s := by
  rw [join_cons, join_nil]
  simp

theorem noNL_mem {s : String} (h : noNL s) {c : Char} (hc : c ∈ s.data) : c ≠ '\n' := by
  intro he
  exact h (he ▸ hc)

theorem countNL_eq_zero {s : String} (h : noNL s) : countNL s = 0 := by
  simp only [countNL, List.count_eq_zero]
  intro hmem
  exact h hmem

theorem escapeChar_no_nl (c : Char) : '\n' ∉ escapeChar c := by
  unfold escapeChar
  split
  · decide
  · split
    · decide
    · split
      · decide
      · split
        · decide
        · split
          · decide
          · next h1 h2 h3 h4 h5 =>
            simp only [List.mem_singleton]
            intro he
            exact h3 he.symm

theorem escapeList_no_nl (l : List Char) : '\n' ∉ escapeList l := by
  induction l with
  | nil => simp [escapeList]
  | cons c cs ih =>
    simp only [escapeList, List.mem_append]
    rintro (h | h)
    · exact escapeChar_no_nl c h
    · exact ih h

theorem noNL_escape_string (s : String) : noNL (escape_string s) :=
  escapeList_no_nl s.data

theorem escapeList_id {l : List Char} (h : ∀ c ∈ l, escapeChar c = [c]) :
    escapeList l = l := by
  induction l with
  | nil => rfl
  | cons c cs ih =>
    simp only [escapeList]
    rw [h c (by simp), ih (fun d hd => h d (by simp [hd]))]
    rfl

theorem wellEscaped_escapeList (l : List Char) : wellEscaped (escapeList l) = true := by
  induction l with
  | nil => rfl
  | cons c cs ih =>
    show wellEscaped (escapeChar c ++ escapeList cs) = true
    by_cases h1 : c = '"'
    · subst h1; simpa [escapeChar, wellEscaped, unescCh]
    · by_cases h2 : c = '\\'
      · subst h2; simpa [escapeChar, wellEscaped, unescCh]
      · by_cases h3 : c = '\n'
        · subst h3; simpa [escapeChar, wellEscaped, unescCh]
        · by_cases h4 : c = '\r'
          · subst h4; simpa [escapeChar, wellEscaped, unescCh]
          · by_cases h5 : c = '\t'
            · subst h5; simpa [escapeChar, wellEscaped, unescCh]
            · rw [escapeChar, if_neg h1, if_neg h2, if_neg h3, if_neg h4, if_neg h5]
              show wellEscaped (c :: escapeList cs) = true
              rw [wellEscaped.eq_def]
              simp [h1, h2, ih]

theorem unescape_escapeList (l : List Char) : unescapeList (escapeList l) = some l := by
  induction l with
  | nil => rfl
  | cons c cs ih =>
    show unescapeList (escapeChar c ++ escapeList cs) = some (c :: cs)
    by_cases h1 : c = '"'
    · subst h1; simp [escapeChar, unescapeList, unescCh, ih]
    · by_cases h2 : c = '\\'
      · subst h2; simp [escapeChar, unescapeList, unescCh, ih]
      · by_cases h3 : c = '\n'
        · subst h3; simp [escapeChar, unescapeList, unescCh, ih]
        · by_cases h4 : c = '\r'
          · subst h4; simp [escapeChar, unescapeList, unescCh, ih]
          · by_cases h5 : c = '\t'
            · subst h5; simp [escapeChar, unescapeList, unescCh, ih]
            · rw [escapeChar, if_neg h1, if_neg h2, if_neg h3, if_neg h4, if_neg h5]
              show unescapeList (c :: escapeList cs) = some (c :: cs)
              rw [unescapeList.eq_def]
              simp [h2, ih]

theorem noNL_append {a b : String} (ha : noNL a) (hb : noNL b) : noNL (a ++ b) := by
  unfold noNL at *
  rw [String.data_append]
  simp only [List.mem_append]
  rintro (h | h)
  · exact ha h
  · exact hb h

theorem natDigitsAux_chars :
    ∀ (fuel n : Nat) (acc : List Char) (c : Char), c ∈ natDigitsAux fuel n acc →
      c ∈ acc ∨ ∃ d, d < 10 ∧ c = digitChar d := by
  intro fuel
  induction fuel with
  | zero => intro n acc c h; exact Or.inl h
  | succ f ih =>
    intro n acc c h
    rw [natDigitsAux] at h
    split at h
    · rcases List.mem_cons.mp h with h1 | h1
      · exact Or.inr ⟨n, by omega, h1⟩
      · exact Or.inl h1
    · rcases ih (n / 10) (digitChar (n % 10) :: acc) c h with h1 | h1
      · rcases List.mem_cons.mp h1 with h2 | h2
        · exact Or.inr ⟨n % 10, Nat.mod_lt n (by omega), h2⟩
        · exact Or.inl h2
      · exact Or.inr h1

theorem natRepr_chars {n : Nat} {c : Char} (h : c ∈ (natRepr n).data) :
    ∃ d, d < 10 ∧ c = digitChar d := by
  rcases natDigitsAux_chars (n + 1) n [] c h with h1 | h1
  · simp at h1
  · exact h1

theorem digitChar_size {d : Nat} (h : d < 10) : (digitChar d).utf8Size = 1 := by
  interval_cases d <;> rfl

theorem digitChar_ne_nl {d : Nat} (h : d < 10) : digitChar d ≠ '\n' := by
  interval_cases d <;> decide

theorem digitChar_ne_dot {d : Nat} (h : d < 10) : digitChar d ≠ '.' := by
  interval_cases d <;> decide

theorem digitChar_ne_exp {d : Nat} (h : d < 10) : digitChar d ≠ 'e' ∧ digitChar d ≠ 'E' := by
  interval_cases d <;> exact ⟨by decide, by decide⟩

theorem sum_sizes_of_ascii {l : List Char} (h : ∀ c ∈ l, c.utf8Size = 1) :
    (l.map Char.utf8Size).sum = l.length := by
  induction l with
  | nil => rfl
  | cons c cs ih =>
    simp only [List.map_cons, List.sum_cons, List.length_cons]
    rw [h c (by simp), ih (fun d hd => h d (by simp [hd]))]
    omega

theorem noNL_natRepr (n : Nat) : noNL (natRepr n) := by
  intro h
  rcases natRepr_chars h with ⟨d, hd, he⟩
  exact digitChar_ne_nl hd he.symm

theorem natDigitsAux_len :
    ∀ (fuel n : Nat) (acc : List Char) (k : Nat), n < 10 ^ k → 1 ≤ k →
      (natDigitsAux fuel n acc).length ≤ k + acc.length := by
  intro fuel
  induction fuel with
  | zero => intro n acc k _ _; simp [natDigitsAux]
  | succ f ih =>
    intro n acc k hn hk
    rw [natDigitsAux]
    split
    · simp only [List.length_cons]
      omega
    · next hge =>
      have h10 : 10 ≤ n := by omega
      have hk2 : 2 ≤ k := by
        by_contra hcon
        have : k = 1 := by omega
        subst this
        simp at hn
        omega
      have hdiv : n / 10 < 10 ^ (k - 1) := by
        rw [Nat.div_lt_iff_lt_mul (by omega : 0 < 10)]
        calc n < 10 ^ k := hn
        _ = 10 ^ (k - 1) * 10 := by
            rw [← Nat.pow_succ]
            congr 1
            omega
      have := ih (n / 10) (digitChar (n % 10) :: acc) (k - 1) hdiv (by omega)
      simp only [List.length_cons] at this
      omega

theorem byteLen_natRepr {n k : Nat} (hn : n < 10 ^ k) (hk : 1 ≤ k) :
    byteLen (natRepr n) ≤ k := by
  unfold byteLen
  rw [sum_sizes_of_ascii (fun c hc => by
    rcases natRepr_chars hc with ⟨d, hd, he⟩
    rw [he]
    exact digitChar_size hd)]
  have := natDigitsAux_len (n + 1) n [] k hn hk
  simpa [natRepr] using this

theorem byteLen_intRepr {n : Int} (h : n.natAbs < 10 ^ 15) : byteLen (intRepr n) ≤ 16 := by
  have hr : byteLen (natRepr n.natAbs) ≤ 15 := byteLen_natRepr h (by omega)
  unfold intRepr
  split
  · rw [byteLen_append]
    have : byteLen "-" = 1 := by decide
    omega
  · omega

theorem noNL_intRepr (n : Int) : noNL (intRepr n) := by
  unfold intRepr
  split
  · exact noNL_append (by decide) (noNL_natRepr _)
  · exact noNL_natRepr _

theorem noNL_padZeros {s : String} (h : noNL s) (k : Nat) : noNL (padZeros s k) := by
  apply noNL_append _ h
  intro hmem
  have := List.eq_of_mem_replicate hmem
  exact absurd this (by decide)

theorem noNL_floatDisplay (q : ℚ) : noNL (floatDisplay q) := by
  unfold floatDisplay
  dsimp only
  split <;> split <;>
    first
    | exact noNL_append (by decide) (noNL_natRepr _)
    | exact noNL_append
        (noNL_append (noNL_append (by decide) (noNL_natRepr _)) (by decide))
        (noNL_padZeros (noNL_natRepr _) _)

theorem escape_string_id {s : String} (h : ∀ c ∈ s.data, escapeChar c = [c]) :
    escape_string s = s := by
  unfold escape_string
  rw [escapeList_id h]

theorem countNL_lineNull (key : String) : countNL (lineNull key) = countNL key + 1 := by
  unfold lineNull
  rw [countNL_append, countNL_append]
  have h1 : countNL "=null" = 0 := by decide
  have h2 : countNL "\n" = 1 := by decide
  omega

theorem countNL_lineBool (key : String) (b : Bool) :
    countNL (lineBool key b) = countNL key + 1 := by
  unfold lineBool
  rw [countNL_append, countNL_append, countNL_append]
  have h1 : countNL "=" = 0 := by decide
  have h2 : countNL "\n" = 1 := by decide
  have h3 : countNL (if b then "true" else "false") = 0 := by cases b <;> decide
  omega

theorem countNL_lineNum (key : String) (q : ℚ) :
    countNL (lineNum key q) = countNL key + 1 := by
  unfold lineNum
  have h1 : countNL "=" = 0 := by decide
  have h2 : countNL "\n" = 1 := by decide
  split
  · rw [countNL_append, countNL_append, countNL_append]
    have h3 : countNL (intRepr q.num) = 0 := countNL_eq_zero (noNL_intRepr _)
    omega
  · rw [countNL_append, countNL_append, countNL_append]
    have h3 : countNL (floatDisplay q) = 0 := countNL_eq_zero (noNL_floatDisplay _)
    omega

theorem countNL_lineStr (key s : String) :
    countNL (lineStr key s) = countNL key + 1 := by
  unfold lineStr
  rw [countNL_append, countNL_append, countNL_append, countNL_append]
  have h1 : countNL "=\"" = 0 := by decide
  have h2 : countNL "\"" = 0 := by decide
  have h3 : countNL "\n" = 1 := by decide
  have h4 : countNL (escape_string s) = 0 := countNL_eq_zero (noNL_escape_string _)
  omega

theorem byteLen_lineNull (key : String) : byteLen (lineNull key) = byteLen key + 6 := by
  unfold lineNull
  rw [byteLen_append, byteLen_append]
  have h1 : byteLen "=null" = 5 := by decide
  have h2 : byteLen "\n" = 1 := by decide
  omega

theorem byteLen_lineBool (key : String) (b : Bool) :
    byteLen (lineBool key b) ≤ byteLen key + 7 := by
  unfold lineBool
  rw [byteLen_append, byteLen_append, byteLen_append]
  have h1 : byteLen "=" = 1 := by decide
  have h2 : byteLen "\n" = 1 := by decide
  have h3 : byteLen (if b then "true" else "false") ≤ 5 := by cases b <;> decide
  omega

theorem byteLen_lineNum_intBranch (key : String) {q : ℚ} (h : intBranch q) :
    byteLen (lineNum key q) ≤ byteLen key + 25 := by
  unfold lineNum
  rw [if_pos h, byteLen_append, byteLen_append, byteLen_append]
  have h1 : byteLen "=" = 1 := by decide
  have h2 : byteLen "\n" = 1 := by decide
  have h3 : byteLen (intRepr q.num) ≤ 16 := byteLen_intRepr h.2
  omega

theorem byteLen_lineStr_id (key : String) {s : String}
    (h : ∀ c ∈ s.data, escapeChar c = [c]) :
    byteLen (lineStr key s) = byteLen key + byteLen s + 4 := by
  unfold lineStr
  rw [escape_string_id h, byteLen_append, byteLen_append, byteLen_append, byteLen_append]
  have h1 : byteLen "=\"" = 2 := by decide
  have h2 : byteLen "\"" = 1 := by decide
  have h3 : byteLen "\n" = 1 := by decide
  omega

mutual
/-- convert_value always succeeds and appends exactly the record list of
the value to the writer buffer. -/
theorem convertValue_ok : ∀ (v : Json) (pre : String) (w : ToonWriter),
    convertValue pre v w = .ok ⟨w.buffer ++ String.join (recordList pre v)⟩
  | .null, pre, w => by
    simp [convertValue, recordList, join_singleton, ToonWriter.write_null, lineNull]
  | .bool b, pre, w => by
    simp [convertValue, recordList, join_singleton, ToonWriter.write_bool, lineBool]
  | .num q, pre, w => by
    simp only [convertValue, numAsF64, recordList, join_singleton]
    unfold ToonWriter.write_number lineNum
    split <;> rfl
  | .str s, pre, w => by
    simp [convertValue, recordList, join_singleton, ToonWriter.write_string, lineStr]
  | .arr es, pre, w => by
    have h := convertArr_ok es pre 0 w
    cases es with
    | nil =>
      simp [convertValue, recordList, join_singleton, ToonWriter.write_string, lineStr]
    | cons e es2 =>
      simp only [convertValue, List.isEmpty, if_neg, Bool.false_eq_true, not_false_eq_true,
        reduceIte, recordList]
      exact h
  | .obj kvs, pre, w => by
    have h := convertObj_ok kvs pre w
    cases kvs with
    | nil =>
      simp [convertValue, recordList, join_singleton, ToonWriter.write_string, lineStr]
    | cons kv kvs2 =>
      simp only [convertValue, List.isEmpty, if_neg, Bool.false_eq_true, not_false_eq_true,
        reduceIte, recordList]
      exact h
theorem convertArr_ok : ∀ (es : List Json) (pre : String) (i : Nat) (w : ToonWriter),
    convertArr pre i es w = .ok ⟨w.buffer ++ String.join (recordArr pre i es)⟩
  | [], pre, i, w => by
    simp [convertArr, recordArr, join_nil, String.append_empty]
  | e :: es, pre, i, w => by
    have h1 := convertValue_ok e (segKey pre (natRepr i)) w
    have h2 := convertArr_ok es pre (i + 1)
      ⟨w.buffer ++ String.join (recordList (segKey pre (natRepr i)) e)⟩
    simp only [convertArr, recordArr, h1, h2, join_append]
    simp [String.append_assoc]
theorem convertObj_ok : ∀ (kvs : List (String × Json)) (pre : String) (w : ToonWriter),
    convertObj pre kvs w = .ok ⟨w.buffer ++ String.join (recordObj pre kvs)⟩
  | [], pre, w => by
    simp [convertObj, recordObj, join_nil, String.append_empty]
  | (k, v) :: kvs, pre, w => by
    have h1 := convertValue_ok v (segKey pre k) w
    have h2 := convertObj_ok kvs pre
      ⟨w.buffer ++ String.join (recordList (segKey pre k) v)⟩
    simp only [convertObj, recordObj, h1, h2, join_append]
    simp [String.append_assoc]
end

/-- Full characterization of Converter::convert: a parse failure is
reported as is (with the anyhow context) and nothing else is returned; on
a parsed value the conversion succeeds and returns exactly the
concatenation of the record list of the value. -/
theorem convert_characterized (c : Converter) (p : Except String Json) :
    (c.convert p).2 = match p with
      | .error e => .error ("Failed to parse JSON: " ++ e)
      | .ok v => .ok (String.join (recordList "" v)) := by
  cases p with
  | error e => simp [Converter.convert]
  | ok v =>
    have h := convertValue_ok v "" ⟨""⟩
    simp [Converter.convert, ToonWriter.new, h, ToonWriter.finish, String.empty_append]

theorem noNL_segKey {pre seg : String} (hp : noNL pre) (hs : noNL seg) :
    noNL (segKey pre seg) := by
  unfold segKey
  split
  · exact hs
  · exact noNL_append (noNL_append hp (by decide)) hs

mutual
/-- One newline per leaf: when no object key contains a newline, the
concatenated records of a value under a newline-free accumulated key hold
exactly leafCount v newline characters. -/
theorem countNL_records : ∀ (v : Json) (pre : String), keysNoNL v = true → noNL pre →
    countNL (String.join (recordList pre v)) = leafCount v
  | .null, pre, _, hp => by
    simp [recordList, leafCount, join_singleton, countNL_lineNull, countNL_eq_zero hp]
  | .bool b, pre, _, hp => by
    simp [recordList, leafCount, join_singleton, countNL_lineBool, countNL_eq_zero hp]
  | .num q, pre, _, hp => by
    simp [recordList, leafCount, join_singleton, countNL_lineNum, countNL_eq_zero hp]
  | .str s, pre, _, hp => by
    simp [recordList, leafCount, join_singleton, countNL_lineStr, countNL_eq_zero hp]
  | .arr es, pre, hk, hp => by
    have h := countNL_recordsArr es pre 0 (by simpa [keysNoNL] using hk) hp
    cases es with
    | nil =>
      simp [recordList, leafCount, join_singleton, countNL_lineStr, countNL_eq_zero hp]
    | cons e es2 =>
      simpa [recordList, leafCount] using h
  | .obj kvs, pre, hk, hp => by
    have h := countNL_recordsObj kvs pre (by simpa [keysNoNL] using hk) hp
    cases kvs with
    | nil =>
      simp [recordList, leafCount, join_singleton, countNL_lineStr, countNL_eq_zero hp]
    | cons kv kvs2 =>
      simpa [recordList, leafCount] using h
theorem countNL_recordsArr : ∀ (es : List Json) (pre : String) (i : Nat),
    keysNoNLArr es = true → noNL pre →
    countNL (String.join (recordArr pre i es)) = leafCountArr es
  | [], pre, i, _, _ => by
    simp [recordArr, leafCountArr, join_nil, countNL]
  | e :: es, pre, i, hk, hp => by
    rw [keysNoNLArr, Bool.and_eq_true] at hk
    have h1 := countNL_records e (segKey pre (natRepr i)) hk.1
      (noNL_segKey hp (noNL_natRepr i))
    have h2 := countNL_recordsArr es pre (i + 1) hk.2 hp
    simp only [recordArr, leafCountArr, join_append, countNL_append]
    omega
theorem countNL_recordsObj : ∀ (kvs : List (String × Json)) (pre : String),
    keysNoNLObj kvs = true → noNL pre →
    countNL (String.join (recordObj pre kvs)) = leafCountObj kvs
  | [], pre, _, _ => by
    simp [recordObj, leafCountObj, join_nil, countNL]
  | (k, v) :: kvs, pre, hk, hp => by
    rw [keysNoNLObj, Bool.and_eq_true, Bool.and_eq_true] at hk
    have hkey : noNL k := of_decide_eq_true hk.1
    have h1 := countNL_records v (segKey pre k) hk.2.1 (noNL_segKey hp hkey)
    have h2 := countNL_recordsObj kvs pre hk.2.2 hp
    simp only [recordObj, leafCountObj, join_append, countNL_append]
    omega
end

mutual
/-- On tame values the estimator dominates the rendered size. -/
theorem size_records_le : ∀ (v : Json) (pre : String), tame v = true →
    byteLen (String.join (recordList pre v)) ≤ estimate_value_size v pre
  | .null, pre, _ => by
    simp [recordList, estimate_value_size, join_singleton, byteLen_lineNull]
  | .bool b, pre, _ => by
    simp only [recordList, estimate_value_size, join_singleton]
    exact byteLen_lineBool pre b
  | .num q, pre, ht => by
    simp only [recordList, estimate_value_size, join_singleton]
    have h : intBranch q := of_decide_eq_true (by simpa [tame] using ht)
    exact byteLen_lineNum_intBranch pre h
  | .str s, pre, ht => by
    simp only [recordList, estimate_value_size, join_singleton]
    have h : ∀ c ∈ s.data, escapeChar c = [c] := by simpa [tame] using ht
    rw [byteLen_lineStr_id pre h]
  | .arr es, pre, ht => by
    rw [tame, Bool.and_eq_true] at ht
    have h := size_records_le_arr es pre 0 ht.2
    cases es with
    | nil => exact absurd ht.1 (by decide)
    | cons e es2 => simpa [recordList, estimate_value_size] using h
  | .obj kvs, pre, ht => by
    rw [tame, Bool.and_eq_true] at ht
    have h := size_records_le_obj kvs pre ht.2
    cases kvs with
    | nil => exact absurd ht.1 (by decide)
    | cons kv kvs2 => simpa [recordList, estimate_value_size] using h
theorem size_records_le_arr : ∀ (es : List Json) (pre : String) (i : Nat), tameArr es = true →
    byteLen (String.join (recordArr pre i es)) ≤ estimateArr pre i es
  | [], pre, i, _ => by
    simp [recordArr, estimateArr, join_nil, byteLen]
  | e :: es, pre, i, ht => by
    rw [tameArr, Bool.and_eq_true] at ht
    have h1 := size_records_le e (segKey pre (natRepr i)) ht.1
    have h2 := size_records_le_arr es pre (i + 1) ht.2
    simp only [recordArr, estimateArr, join_append, byteLen_append]
    omega
theorem size_records_le_obj : ∀ (kvs : List (String × Json)) (pre : String), tameObj kvs = true →
    byteLen (String.join (recordObj pre kvs)) ≤ estimateObj pre kvs
  | [], pre, _ => by
    simp [recordObj, estimateObj, join_nil, byteLen]
  | (k, v) :: kvs, pre, ht => by
    rw [tameObj, Bool.and_eq_true] at ht
    have h1 := size_records_le v (segKey pre k) ht.1
    have h2 := size_records_le_obj kvs pre ht.2
    simp only [recordObj, estimateObj, join_append, byteLen_append]
    omega
end

mutual
/-- The emitted records are exactly the leaves of the value, each rendered
under the fold of its path segments over the accumulated key. -/
theorem records_spec : ∀ (v : Json) (pre : String),
    recordList pre v = (specLeaves v).map (fun pl => leafLine (pl.1.foldl segKey pre) pl.2)
  | .null, pre => by simp [recordList, specLeaves, leafLine]
  | .bool b, pre => by simp [recordList, specLeaves, leafLine]
  | .num q, pre => by simp [recordList, specLeaves, leafLine]
  | .str s, pre => by simp [recordList, specLeaves, leafLine]
  | .arr es, pre => by
    have h := records_specArr es 0 pre
    cases es with
    | nil => simp [recordList, specLeaves, leafLine]
    | cons e es2 => simpa [recordList, specLeaves] using h
  | .obj kvs, pre => by
    have h := records_specObj kvs pre
    cases kvs with
    | nil => simp [recordList, specLeaves, leafLine]
    | cons kv kvs2 => simpa [recordList, specLeaves] using h
theorem records_specArr : ∀ (es : List Json) (i : Nat) (pre : String),
    recordArr pre i es = (specLeavesArr i es).map (fun pl => leafLine (pl.1.foldl segKey pre) pl.2)
  | [], i, pre => by simp [recordArr, specLeavesArr]
  | e :: es, i, pre => by
    have h1 := records_spec e (segKey pre (natRepr i))
    have h2 := records_specArr es (i + 1) pre
    simp only [recordArr, specLeavesArr, List.map_append, List.map_map]
    rw [h1, h2]
    rfl
theorem records_specObj : ∀ (kvs : List (String × Json)) (pre : String),
    recordObj pre kvs = (specLeavesObj kvs).map (fun pl => leafLine (pl.1.foldl segKey pre) pl.2)
  | [], pre => by simp [recordObj, specLeavesObj]
  | (k, v) :: kvs, pre => by
    have h1 := records_spec v (segKey pre k)
    have h2 := records_specObj kvs pre
    simp only [recordObj, specLeavesObj, List.map_append, List.map_map]
    rw [h1, h2]
    rfl
end

/-- The condition tested by write_number, restated on the rational value:
for a value with zero fractional part (denominator 1), the numerator bound
is exactly the bound on the absolute value. -/
theorem intBranch_iff {q : ℚ} (hden : q.den = 1) :
    intBranch q ↔ |q| < 10 ^ 15 := by
  have hq : (q.num : ℚ) = q := (Rat.den_eq_one_iff q).mp hden
  have habs : ((|q.num| : ℤ) : ℚ) = |q| := by rw [Int.cast_abs, hq]
  have hnat : (10 : ℤ) ^ 15 = 1000000000000000 := by norm_num
  have hnat2 : (10 : ℕ) ^ 15 = 1000000000000000 := by norm_num
  have hcast : ((10 ^ 15 : ℤ) : ℚ) = 10 ^ 15 := by push_cast; ring
  unfold intBranch
  constructor
  · rintro ⟨_, h2⟩
    rw [hnat2] at h2
    have hz : |q.num| < (10 : ℤ) ^ 15 := by
      rw [Int.abs_eq_natAbs, hnat]
      omega
    calc |q| = ((|q.num| : ℤ) : ℚ) := habs.symm
    _ < ((10 ^ 15 : ℤ) : ℚ) := by exact_mod_cast hz
    _ = 10 ^ 15 := hcast
  · intro h2
    refine ⟨hden, ?_⟩
    have hz : |q.num| < (10 : ℤ) ^ 15 := by
      have hlt : ((|q.num| : ℤ) : ℚ) < ((10 ^ 15 : ℤ) : ℚ) := by
        rw [habs, hcast]
        exact h2
      exact_mod_cast hlt
    rw [Int.abs_eq_natAbs, hnat] at hz
    rw [hnat2]
    omega

/-- C2: escape_string leaves no unescaped quote or backslash, decoding by
the inverse of the escape table recovers the input exactly, and a string
containing none of the five table characters passes through unchanged. -/
theorem C2_escape_roundtrip (s : String) :
    wellEscaped (escape_string s).data = true ∧
    unescapeList (escape_string s).data = some s.data ∧
    ((∀ c ∈ s.data, ¬ isEscCh c) → escape_string s = s) := by
  refine ⟨wellEscaped_escapeList s.data, unescape_escapeList s.data, fun h => ?_⟩
  apply escape_string_id
  intro c hc
  have hn := h c hc
  unfold isEscCh at hn
  push_neg at hn
  unfold escapeChar
  rw [if_neg hn.1, if_neg hn.2.1, if_neg hn.2.2.1, if_neg hn.2.2.2.1, if_neg hn.2.2.2.2]

/-- Witness for C2 at concrete strings, one with all the escapes and one
(non-ASCII) without any. -/
theorem C2_escape_roundtrip_witness :
    wellEscaped (escape_string "a\"b\\c\nd\re\tf").data = true ∧
    unescapeList (escape_string "a\"b\\c\nd\re\tf").data = some "a\"b\\c\nd\re\tf".data ∧
    escape_string "héllo wörld" = "héllo wörld" :=
  ⟨(C2_escape_roundtrip "a\"b\\c\nd\re\tf").1,
   (C2_escape_roundtrip "a\"b\\c\nd\re\tf").2.1,
   (C2_escape_roundtrip "héllo wörld").2.2 (by decide)⟩

/-- C10 (amended): every write operation leaves the previous buffer
content unchanged as a prefix and appends a chunk of the form t ++
newline; provided the key contains no newline the chunk is a single
newline-terminated line (t itself is newline-free). finish returns the
accumulated buffer with nothing added or removed. Unescaped keys with
embedded newlines break the one-line reading, see the counterexample. -/
theorem C10_writer_appends (w : ToonWriter) (key value : String) (b : Bool) (q : ℚ) :
    (∃ t, w.write_null key = ⟨w.buffer ++ (t ++ "\n")⟩ ∧ (noNL key → noNL t)) ∧
    (∃ t, w.write_bool key b = ⟨w.buffer ++ (t ++ "\n")⟩ ∧ (noNL key → noNL t)) ∧
    (∃ t, w.write_number key q = ⟨w.buffer ++ (t ++ "\n")⟩ ∧ (noNL key → noNL t)) ∧
    (∃ t, w.write_string key value = ⟨w.buffer ++ (t ++ "\n")⟩ ∧ (noNL key → noNL t)) ∧
    ToonWriter.finish w = w.buffer := by
  refine ⟨⟨key ++ "=null", rfl, fun hk => noNL_append hk (by decide)⟩,
    ⟨key ++ "=" ++ (if b then "true" else "false"), rfl, fun hk => ?_⟩, ?_,
    ⟨key ++ "=\"" ++ escape_string value ++ "\"", rfl, fun hk => ?_⟩, rfl⟩
  · refine noNL_append (noNL_append hk (by decide)) ?_
    cases b <;> decide
  · unfold ToonWriter.write_number
    split
    · exact ⟨key ++ "=" ++ intRepr q.num, rfl,
        fun hk => noNL_append (noNL_append hk (by decide)) (noNL_intRepr _)⟩
    · exact ⟨key ++ "=" ++ floatDisplay q, rfl,
        fun hk => noNL_append (noNL_append hk (by decide)) (noNL_floatDisplay _)⟩
  · exact noNL_append (noNL_append (noNL_append hk (by decide)) (noNL_escape_string _)) (by decide)

/-- Witness for C10 at a concrete writer state and key. -/
theorem C10_writer_appends_witness :
    noNL "k" ∧
    (∃ t, (ToonWriter.mk "p=1\n").write_null "k" = ⟨"p=1\n" ++ (t ++ "\n")⟩ ∧ noNL t) ∧
    ToonWriter.finish (ToonWriter.mk "p=1\n") = "p=1\n" := by
  have h := C10_writer_appends (ToonWriter.mk "p=1\n") "k" "v" true (mkRat 1 1)
  rcases h.1 with ⟨t, h1, h2⟩
  exact ⟨by decide, ⟨t, h1, h2 (by decide)⟩, h.2.2.2.2⟩

/-- Counterexample to C10 as stated: a key containing a newline makes
write_null append a chunk holding two newlines, which is not exactly one
newline-terminated line. -/
theorem C10_one_line_cex :
    ToonWriter.new.write_null "a\nb" = ⟨"" ++ "a\nb=null\n"⟩ ∧
    countNL "a\nb=null\n" = 2 ∧ ¬ countNL "a\nb=null\n" = 1 :=
  ⟨rfl, by decide, by decide⟩

theorem intRepr_chars {n : Int} {c : Char} (h : c ∈ (intRepr n).data) :
    c = '-' ∨ ∃ d, d < 10 ∧ c = digitChar d := by
  unfold intRepr at h
  split at h
  · rw [String.data_append] at h
    rcases List.mem_append.mp h with h1 | h1
    · left; simpa using h1
    · right; exact natRepr_chars h1
  · right; exact natRepr_chars h

/-- C4: write_number appends the line key= followed by the plain integer
rendering (no decimal point, no exponent character) when the value has
zero fractional part and magnitude below 1e15, and by the default float
text form otherwise; 30 renders as 30 and 98.5 renders as 98.5. -/
theorem C4_write_number (w : ToonWriter) (key : String) (q : ℚ) :
    (q.den = 1 → |q| < 10 ^ 15 →
      w.write_number key q = ⟨w.buffer ++ (key ++ "=" ++ intRepr q.num ++ "\n")⟩ ∧
      ∀ c ∈ (intRepr q.num).data, c ≠ '.' ∧ c ≠ 'e' ∧ c ≠ 'E') ∧
    (¬ (q.den = 1 ∧ |q| < 10 ^ 15) →
      w.write_number key q = ⟨w.buffer ++ (key ++ "=" ++ floatDisplay q ++ "\n")⟩) ∧
    ToonWriter.new.write_number "n" (30 : ℚ) = ⟨"n=30" ++ "\n"⟩ ∧
    ToonWriter.new.write_number "n" (98.5 : ℚ) = ⟨"n=98.5" ++ "\n"⟩ := by
  have e30 : (30 : ℚ) = mkRat 30 1 := by norm_num [mkRat]
  have e985 : (98.5 : ℚ) = mkRat 197 2 := by norm_num [mkRat]
  refine ⟨fun hden hlt => ?_, fun hn => ?_, by rw [e30]; rfl, by rw [e985]; rfl⟩
  · have hb : intBranch q := (intBranch_iff hden).mpr hlt
    constructor
    · unfold ToonWriter.write_number
      rw [if_pos hb]
    · intro c hc
      rcases intRepr_chars hc with h1 | ⟨d, hd, h1⟩
      · subst h1; exact ⟨by decide, by decide, by decide⟩
      · subst h1
        exact ⟨digitChar_ne_dot hd, (digitChar_ne_exp hd).1, (digitChar_ne_exp hd).2⟩
  · have hb : ¬ intBranch q := by
      intro hb
      rcases hb with ⟨hden, _⟩
      exact hn ⟨hden, (intBranch_iff hden).mp ⟨hden, by omega⟩⟩
    unfold ToonWriter.write_number
    rw [if_neg hb]

/-- Witness for C4 at 30 (integer branch) and one third (float branch,
denominator 3 is not 1). -/
theorem C4_write_number_witness :
    (30 : ℚ).den = 1 ∧ |(30 : ℚ)| < 10 ^ 15 ∧
    ToonWriter.new.write_number "n" (30 : ℚ) = ⟨"" ++ ("n" ++ "=" ++ intRepr (30 : ℚ).num ++ "\n")⟩ ∧
    ¬ ((mkRat 1 3).den = 1 ∧ |mkRat 1 3| < 10 ^ 15) ∧
    ToonWriter.new.write_number "n" (mkRat 1 3) =
      ⟨"" ++ ("n" ++ "=" ++ floatDisplay (mkRat 1 3) ++ "\n")⟩ := by
  have hden : (30 : ℚ).den = 1 := by norm_num
  have hlt : |(30 : ℚ)| < 10 ^ 15 := by
    rw [abs_lt]
    constructor <;> norm_num
  have hno : ¬ ((mkRat 1 3).den = 1 ∧ |mkRat 1 3| < 10 ^ 15) := by
    rintro ⟨hd, _⟩
    exact absurd hd (by decide)
  exact ⟨hden, hlt,
    ((C4_write_number ToonWriter.new "n" (30 : ℚ)).1 hden hlt).1,
    hno,
    (C4_write_number ToonWriter.new "n" (mkRat 1 3)).2.1 hno⟩

/-- C5: an empty array at any key path yields exactly the quoted sentinel
record key="[]" (through write_string) and an empty object the record
key="()" with curly braces; concretely for the two spec examples. -/
theorem C5_empty_container_sentinels (pre : String) (w : ToonWriter) :
    convertValue pre (.arr []) w = .ok ⟨w.buffer ++ (pre ++ "=\"[]\"" ++ "\n")⟩ ∧
    convertValue pre (.obj []) w = .ok ⟨w.buffer ++ (pre ++ "=\"\x7b\x7d\"" ++ "\n")⟩ ∧
    (Converter.new false).convert (.ok (.obj [("items", .arr [])])) = ([], .ok "items=\"[]\"\n") ∧
    (Converter.new false).convert (.ok (.obj [("data", .obj [])])) = ([], .ok "data=\"\x7b\x7d\"\n") := by
  refine ⟨?_, ?_, rfl, rfl⟩
  · show Except.ok (w.write_string pre "[]") = _
    unfold ToonWriter.write_string
    rw [show escape_string "[]" = "[]" from rfl]
    simp [String.append_assoc]
  · show Except.ok (w.write_string pre "\x7b\x7d") = _
    unfold ToonWriter.write_string
    rw [show escape_string "\x7b\x7d" = "\x7b\x7d" from rfl]
    simp [String.append_assoc]

/-- Counterexample to C3 as stated: with an empty object key, the record
key is not the dot-join of the path segments. For the value with key ""
holding an object with key "a", the path of the leaf is ["", "a"], whose
dot-join is ".a", but the emitted record is a=1: converting the prefix
"" ++ key collapses the empty segment because the code tests only whether
the accumulated prefix is empty. -/
theorem C3_dot_join_cex :
    ((Converter.new false).convert
      (.ok (.obj [("", .obj [("a", .num (mkRat 1 1))])]))).2 = .ok "a=1\n" ∧
    (specLeaves (.obj [("", .obj [("a", .num (mkRat 1 1))])])).map
      (fun pl => leafLine (String.intercalate "." pl.1) pl.2) = [".a=1" ++ "\n"] ∧
    ¬ "a=1\n" = String.join ((specLeaves (.obj [("", .obj [("a", .num (mkRat 1 1))])])).map
        (fun pl => leafLine (String.intercalate "." pl.1) pl.2)) :=
  ⟨rfl, rfl, by decide⟩

/-- C3 (amended): convert emits exactly one record per leaf, in order,
whose key is the fold of the path segments over the empty root key, where
joining prepends a dot only when the accumulated key is nonempty (so
empty segments collapse instead of contributing a leading dot); object
entries contribute their key verbatim, array elements their 0-based
decimal index, and a root leaf gets the empty key. The two spec examples
follow concretely. -/
theorem C3_record_keys (v : Json) :
    ((Converter.new false).convert (.ok v)).2 =
      .ok (String.join ((specLeaves v).map (fun pl => leafLine (pl.1.foldl segKey "") pl.2))) ∧
    recordList "" (.obj [("a", .obj [("b", .arr [.num (mkRat 1 1), .num (mkRat 2 1)])])]) =
      ["a.b.0=1" ++ "\n", "a.b.1=2" ++ "\n"] ∧
    (Converter.new false).convert (.ok (.str "hello")) = ([], .ok "=\"hello\"\n") := by
  refine ⟨?_, rfl, rfl⟩
  rw [convert_characterized]
  show Except.ok (String.join (recordList "" v)) = _
  rw [records_spec v ""]

/-- C6 (amended): when no object key contains a newline character, the
output of a successful conversion holds exactly one newline-terminated
line per leaf: its newline count equals the leaf count, where null,
booleans, numbers, strings and empty containers count one each and a
non-empty container is the sum over its children. Keys are written
unescaped, so a key with an embedded newline breaks the line count, see
the counterexample. -/
theorem C6_line_count (v : Json) (b : Bool) (h : keysNoNL v = true) :
    ∃ out, ((Converter.new b).convert (.ok v)).2 = .ok out ∧
      countNL out = leafCount v := by
  refine ⟨String.join (recordList "" v), ?_, countNL_records v "" h (by decide)⟩
  rw [convert_characterized]

/-- Witness for C6 on a small mixed-type value with three leaves. -/
theorem C6_line_count_witness :
    keysNoNL (.obj [("a", .num (mkRat 1 1)), ("b", .arr [.null, .bool true])]) = true ∧
    ∃ out, ((Converter.new false).convert
        (.ok (.obj [("a", .num (mkRat 1 1)), ("b", .arr [.null, .bool true])]))).2 = .ok out ∧
      countNL out = leafCount (.obj [("a", .num (mkRat 1 1)), ("b", .arr [.null, .bool true])]) :=
  ⟨by decide, C6_line_count (.obj [("a", .num (mkRat 1 1)), ("b", .arr [.null, .bool true])])
    false (by decide)⟩

/-- Counterexample to C6 as stated: an object key holding a newline makes
a single leaf span two newline-terminated lines. -/
theorem C6_line_count_cex :
    ((Converter.new false).convert (.ok (.obj [("a\nb", .num (mkRat 1 1))]))).2 =
      .ok "a\nb=1\n" ∧
    leafCount (.obj [("a\nb", .num (mkRat 1 1))]) = 1 ∧
    countNL "a\nb=1\n" = 2 ∧ ¬ countNL "a\nb=1\n" = 1 :=
  ⟨rfl, rfl, by decide, by decide⟩

/-- Counterexample to C1 as stated: for the empty array, the rendered
sentinel record is the six bytes of a quoted pair of brackets, an equals
sign and a newline, while the estimator charges only key+5; the estimate
is below the actual output size. -/
theorem C1_estimate_cex :
    ((Converter.new false).convert (.ok (Json.arr []))).2 = .ok "=\"[]\"\n" ∧
    (Converter.new false).estimate_size (.ok (Json.arr [])) = .ok 5 ∧
    byteLen "=\"[]\"\n" = 6 ∧ ¬ byteLen "=\"[]\"\n" ≤ 5 :=
  ⟨rfl, rfl, by decide, by decide⟩

/-- C1 (amended): on parsed values whose numbers take the integer branch,
whose strings contain no escape-table character, and which contain no
empty array or object, estimate_size succeeds and dominates the byte
length of the output of convert. Empty containers are charged key+5 but
render as key+6 bytes, each escaped character adds a byte beyond the
string estimate, and a float-path number may exceed the 25-byte
allowance, so the bound needs these exclusions. -/
theorem C1_estimate_dominates (v : Json) (b : Bool) (h : tame v = true) :
    ∃ out n, ((Converter.new b).convert (.ok v)).2 = .ok out ∧
      (Converter.new b).estimate_size (.ok v) = .ok n ∧ byteLen out ≤ n := by
  refine ⟨String.join (recordList "" v), estimate_value_size v "", ?_, rfl,
    size_records_le v "" h⟩
  rw [convert_characterized]

/-- Witness for C1 on a tame value with a nested object, an array, a
number and a string. -/
theorem C1_estimate_dominates_witness :
    tame (.obj [("a", .str "x"), ("b", .arr [.num (mkRat 3 1), .null])]) = true ∧
    ∃ out n, ((Converter.new false).convert
        (.ok (.obj [("a", .str "x"), ("b", .arr [.num (mkRat 3 1), .null])]))).2 = .ok out ∧
      (Converter.new false).estimate_size
        (.ok (.obj [("a", .str "x"), ("b", .arr [.num (mkRat 3 1), .null])])) = .ok n ∧
      byteLen out ≤ n :=
  ⟨by decide, C1_estimate_dominates
    (.obj [("a", .str "x"), ("b", .arr [.num (mkRat 3 1), .null])]) false (by decide)⟩

/-- C7: convert fails with the parse error (under the anyhow context
message) exactly on the inputs the external parser rejects, and succeeds
on every parsed tree: with default serde_json features every parsed
number is a finite double and as_f64 never returns None, so the
conversion-error branch for non-finite numbers is unreachable. -/
theorem C7_failure_modes (c : Converter) (p : Except String Json) :
    (∀ e, p = .error e → (c.convert p).2 = .error ("Failed to parse JSON: " ++ e)) ∧
    (∀ v, p = .ok v → ∃ out, (c.convert p).2 = .ok out) ∧
    (∀ v pre w, ∃ w2, convertValue pre v w = .ok w2) := by
  refine ⟨?_, ?_, ?_⟩
  · rintro e rfl
    rw [convert_characterized]
  · rintro v rfl
    exact ⟨String.join (recordList "" v), by rw [convert_characterized]⟩
  · intro v pre w
    exact ⟨_, convertValue_ok v pre w⟩

/-- Witness for C7 on a rejected input and on a parsed tree. -/
theorem C7_failure_modes_witness :
    ((Converter.new false).convert (.error "expected value at line 1")).2 =
      .error ("Failed to parse JSON: " ++ "expected value at line 1") ∧
    (∃ out, ((Converter.new false).convert (.ok (.arr [.null]))).2 = .ok out) ∧
    (∃ w2, convertValue "k" (.num (mkRat 7 2)) ToonWriter.new = .ok w2) := by
  have h := C7_failure_modes (Converter.new false) (.error "expected value at line 1")
  have h2 := C7_failure_modes (Converter.new false) (.ok (.arr [.null]))
  exact ⟨h.1 "expected value at line 1" rfl, h2.2.1 (.arr [.null]) rfl,
    h2.2.2 (.num (mkRat 7 2)) "k" ToonWriter.new⟩

/-- C8: conversion is all-or-nothing: on a parse failure the result is
exactly the error and carries no output text, and on success the output
is exactly the concatenation of every leaf record. -/
theorem C8_all_or_nothing (c : Converter) (p : Except String Json) :
    (c.convert p).2 = match p with
      | .error e => .error ("Failed to parse JSON: " ++ e)
      | .ok v => .ok (String.join (recordList "" v)) :=
  convert_characterized c p

/-- C9: the returned conversion result is a deterministic function of the
parsed input alone: any two converter instances (in particular any two
runs, with or without verbose logging) return byte-identical results. -/
theorem C9_deterministic (c1 c2 : Converter) (p : Except String Json) :
    (c1.convert p).2 = (c2.convert p).2 := by
  rw [convert_characterized, convert_characterized]
